import Mathlib

/-!
Shallow embedding of the indicator/signal pipeline of `src/cripto.py`
(the `calculate_indicators` and `check_signal` functions and the data
they operate on), together with theorems settling the frozen claims.

Modelling conventions:
* pandas float values are modelled as exact rationals (`ℚ`); a value that
  is `NaN` in the float world (missing rolling-window output, undefined
  RSI) is modelled as `none : Option ℚ`.
* A pandas DataFrame with the OHLCV columns plus the derived indicator
  columns is modelled as `IndicatorFrame`: the raw bars plus one list per
  derived column.
* Float comparisons against a possibly-`NaN` operand follow IEEE
  semantics: any comparison with `NaN` is false.
* The Telegram side effect in `check_signal` is external I/O; its boolean
  outcome (`send_telegram_alert` returning `True` or `False`) is passed in
  as the `sendOk` argument.
-/

namespace Cripto

/-- One OHLCV bar, as parsed from the exchange response
(`timestamp, open, high, low, close, volume` columns). -/
structure Bar where
  timestamp : ℚ
  open_ : ℚ
  high : ℚ
  low : ℚ
  close : ℚ
  volume : ℚ
  deriving Inhabited, DecidableEq

/-- Largest element of a list, `none` on the empty list
(pandas max of a window with no rows). -/
def listMax : List ℚ → Option ℚ
  | [] => none
  | x :: xs => some (xs.foldl max x)

/-- Smallest element of a list, `none` on the empty list. -/
def listMin : List ℚ → Option ℚ
  | [] => none
  | x :: xs => some (xs.foldl min x)

/-- Pandas `Series.rolling(n).mean()`: at row `i` the mean of the `n` trailing
values (rows `i-n+1 … i`), `none` while the window is not yet full. -/
def rollingMean (n : ℕ) (xs : List ℚ) : List (Option ℚ) :=
  (List.range xs.length).map fun i =>
    if n ≤ i + 1 then some (((xs.drop (i + 1 - n)).take n).sum / n) else none

/-- Pandas `Series.rolling(n).max()`: trailing-window maximum. -/
def rollingMax (n : ℕ) (xs : List ℚ) : List (Option ℚ) :=
  (List.range xs.length).map fun i =>
    if n ≤ i + 1 then listMax ((xs.drop (i + 1 - n)).take n) else none

/-- Pandas `Series.rolling(n).min()`: trailing-window minimum. -/
def rollingMin (n : ℕ) (xs : List ℚ) : List (Option ℚ) :=
  (List.range xs.length).map fun i =>
    if n ≤ i + 1 then listMin ((xs.drop (i + 1 - n)).take n) else none

/-- Smoothing factor of `Series.ewm(span=s, adjust=False)`. -/
def emaAlpha (span : ℕ) : ℚ := 2 / (span + 1)

/-- One step of the adjust=False exponential moving average recurrence. -/
def emaStep (span : ℕ) (prev c : ℚ) : ℚ :=
  emaAlpha span * c + (1 - emaAlpha span) * prev

/-- Pandas `Series.ewm(span=s, adjust=False).mean()`: seeded with the first
value, then the recursive EMA update at every later row. -/
def emaList (span : ℕ) : List ℚ → List ℚ
  | [] => []
  | c :: cs => List.scanl (emaStep span) c cs

/-- Pandas `Series.diff()`: `none` at row 0, `close[i] - close[i-1]` afterwards. -/
def diffs : List ℚ → List (Option ℚ)
  | [] => []
  | c :: cs => none :: List.zipWith (fun prev cur => some (cur - prev)) (c :: cs) cs

/-- The gain column `delta.where(delta > 0, 0)`: positive deltas kept, everything else —
including the `NaN` delta of row 0, whose comparison is false — replaced
by `0`. -/
def gainsOf (closes : List ℚ) : List ℚ :=
  (diffs closes).map fun d =>
    match d with
    | some x => if 0 < x then x else 0
    | none => 0

/-- The loss column `-delta.where(delta < 0, 0)`: negative deltas kept and negated,
everything else (row 0 included) replaced by `0`. -/
def lossesOf (closes : List ℚ) : List ℚ :=
  (diffs closes).map fun d =>
    match d with
    | some x => if x < 0 then -x else 0
    | none => 0

/-- Models `rs = avg_gain / avg_loss; rsi = 100 - 100/(1 + rs)` in IEEE float
arithmetic, for the non-negative averages the pipeline produces:
a `NaN` average gives `NaN`; `avg_loss = 0` with `avg_gain > 0` gives
`rs = inf` hence `rsi = 100`; `0/0` gives `NaN`; otherwise the finite
formula. -/
def rsiFromAvgs (g? l? : Option ℚ) : Option ℚ :=
  match g?, l? with
  | some g, some l =>
    if l = 0 then (if g = 0 then none else some 100)
    else some (100 - 100 / (1 + g / l))
  | _, _ => none

/-- The `rsi` column of `calculate_indicators`, built from the rolling
means of the gain and loss columns. -/
def rsiList (period : ℕ) (closes : List ℚ) : List (Option ℚ) :=
  List.zipWith rsiFromAvgs
    (rollingMean period (gainsOf closes))
    (rollingMean period (lossesOf closes))

/-- The DataFrame after `calculate_indicators`: the raw bars plus the
derived `ema_fast, ema_slow, rsi, resistance, support` columns. -/
structure IndicatorFrame where
  bars : List Bar
  ema_fast : List ℚ
  ema_slow : List ℚ
  rsi : List (Option ℚ)
  resistance : List (Option ℚ)
  support : List (Option ℚ)
  deriving Inhabited, DecidableEq

/-- Embeds `calculate_indicators(df)` with the four sidebar parameters made
explicit: attaches the two EMAs, the RSI and the rolling
support/resistance columns to the bars.  (The `if df.empty: return df`
short-circuit of the source is omitted: on the empty series every column
below is the empty list, which is the same empty output.) -/
def calculate_indicators (emaFastSpan emaSlowSpan rsiPeriod srPeriod : ℕ)
    (bars : List Bar) : IndicatorFrame :=
  let closes := bars.map Bar.close
  { bars := bars
    ema_fast := emaList emaFastSpan closes
    ema_slow := emaList emaSlowSpan closes
    rsi := rsiList rsiPeriod closes
    resistance := rollingMax srPeriod (bars.map Bar.high)
    support := rollingMin srPeriod (bars.map Bar.low) }

/-- The signal record returned by `check_signal`
(`{'type','price','sl','tp1','tp2','rsi'}`).  Fields copied from
possibly-`NaN` columns are `Option ℚ`. -/
structure Signal where
  type : String
  price : ℚ
  sl : Option ℚ
  tp1 : Option ℚ
  tp2 : Option ℚ
  rsi : Option ℚ
  deriving Inhabited, DecidableEq

/-- Comparison `x > y?` for a float `y?` that may be `NaN`: false when `y?` is `NaN`. -/
def gtNan (x : ℚ) (y? : Option ℚ) : Bool :=
  match y? with
  | some y => decide (y < x)
  | none => false

/-- The `buy_conditions` expression of `check_signal`, on the last row
(`current = df.iloc[-1]`) and the one before (`prev = df.iloc[-2]`). -/
def buy_conditions (df : IndicatorFrame) : Bool :=
  let n := df.bars.length
  let current := df.bars.getD (n - 1) default
  gtNan current.close (df.resistance.getD (n - 1) none) &&
  gtNan current.volume
    (((rollingMean 20 (df.bars.map Bar.volume)).getD (n - 1) none).map
      (fun m => m * (3 / 2))) &&
  decide (df.ema_slow.getD (n - 1) 0 < df.ema_fast.getD (n - 1) 0) &&
  (match df.rsi.getD (n - 1) none with
   | some r => decide (40 < r) && decide (r < 70)
   | none => false) &&
  decide (df.ema_fast.getD (n - 2) 0 ≤ df.ema_slow.getD (n - 2) 0)

/-- Embeds `check_signal(df, symbol)`.  `sendOk` is the boolean outcome of the
external `send_telegram_alert(message)` call; the source only returns the
signal record when that call returns `True`. -/
def check_signal (df : IndicatorFrame) (sendOk : Bool) : Option Signal :=
  let n := df.bars.length
  if n < 50 then none
  else
    let current := df.bars.getD (n - 1) default
    let support? := df.support.getD (n - 1) none
    let risk? := support?.map fun s => current.close - s
    if buy_conditions df then
      if sendOk then
        some { type := "BUY"
               price := current.close
               sl := support?
               tp1 := risk?.map fun r => current.close + r
               tp2 := risk?.map fun r => current.close + r * (3 / 2)
               rsi := df.rsi.getD (n - 1) none }
      else none
    else none

/-- A synthetic bar for the buy-signal fixtures: high 100, low 80, with
configurable close and volume. -/
def sigBar (cl vol : ℚ) : Bar := ⟨0, 100, 100, 80, cl, vol⟩

/-- A hand-built 50-row frame whose latest two rows satisfy all five buy
conditions (close 103 above resistance 100; volume 100 above 1.5× the
trailing-20 mean 14.5; fast EMA 101 above slow EMA 100 after sitting below
it on the previous row; RSI 50 inside the band), parameterized by the
support value of every row. -/
def sigFrameWith (s : ℚ) : IndicatorFrame :=
  { bars := List.replicate 49 (sigBar 100 10) ++ [sigBar 103 100]
    ema_fast := List.replicate 49 90 ++ [101]
    ema_slow := List.replicate 49 95 ++ [100]
    rsi := List.replicate 50 (some 50)
    resistance := List.replicate 50 (some 100)
    support := List.replicate 50 (some s) }

/-- The signal record produced on `sigFrameWith 80`: price 103,
stop 80, risk 23, take-profits 126 and 137.5, RSI 50. -/
def sigRecord80 : Signal :=
  { type := "BUY", price := 103, sl := some 80, tp1 := some 126,
    tp2 := some (275 / 2), rsi := some 50 }

/-- The series of bars of the spec's resistance example, with highs
`[1, 5, 3, 7, 2]`. -/
def c7Bars : List Bar :=
  [⟨0, 0, 1, 0, 0, 0⟩, ⟨1, 0, 5, 0, 0, 0⟩, ⟨2, 0, 3, 0, 0, 0⟩,
    ⟨3, 0, 7, 0, 0, 0⟩, ⟨4, 0, 2, 0, 0, 0⟩]

/-- Spec-side per-bar price delta `close[k] - close[k-1]` of the RSI
description. -/
def specDelta (closes : List ℚ) (k : ℕ) : ℚ :=
  closes.getD k 0 - closes.getD (k - 1) 0

/-- Spec-side simple rolling mean of the gains over the `p` trailing
deltas at row `i` (deltas at rows `i-p+1 … i`). -/
def specAvgGain (p : ℕ) (closes : List ℚ) (i : ℕ) : ℚ :=
  (∑ j ∈ Finset.range p, max (specDelta closes (i - j)) 0) / p

/-- Spec-side simple rolling mean of the losses over the `p` trailing
deltas at row `i`. -/
def specAvgLoss (p : ℕ) (closes : List ℚ) (i : ℕ) : ℚ :=
  (∑ j ∈ Finset.range p, max (-(specDelta closes (i - j))) 0) / p

/-- A three-bar series, shorter than every configured window. -/
def shortBars : List Bar :=
  [⟨0, 1, 2, 1, 1, 5⟩, ⟨1, 1, 2, 1, 2, 5⟩, ⟨2, 1, 2, 1, 1, 5⟩]

/-- A three-bar series whose closes are `[3, 2, 4]` (one loss, one gain),
for the RSI formula witness. -/
def c5wBars : List Bar :=
  [⟨0, 3, 3, 3, 3, 1⟩, ⟨1, 2, 2, 2, 2, 1⟩, ⟨2, 4, 4, 4, 4, 1⟩]

/-- A three-bar series whose closes are `[1, 2, 3]` (strictly increasing),
for the RSI boundary counterexample. -/
def c5xBars : List Bar :=
  [⟨0, 1, 1, 1, 1, 1⟩, ⟨1, 2, 2, 2, 2, 1⟩, ⟨2, 3, 3, 3, 3, 1⟩]

/-- A four-bar series whose closes are `[1, 2, 3, 4]` (strictly
increasing), for the RSI saturation witness. -/
def c6wBars : List Bar :=
  [⟨0, 1, 1, 1, 1, 1⟩, ⟨1, 2, 2, 2, 2, 1⟩, ⟨2, 3, 3, 3, 3, 1⟩, ⟨3, 4, 4, 4, 4, 1⟩]

/-! ### Basic length and indexing lemmas for the rolling primitives -/

theorem length_rollingMean (n : ℕ) (xs : List ℚ) :
    (rollingMean n xs).length = xs.length := by
  simp [rollingMean]

theorem length_rollingMax (n : ℕ) (xs : List ℚ) :
    (rollingMax n xs).length = xs.length := by
  simp [rollingMax]

theorem length_rollingMin (n : ℕ) (xs : List ℚ) :
    (rollingMin n xs).length = xs.length := by
  simp [rollingMin]

theorem length_emaList (span : ℕ) (closes : List ℚ) :
    (emaList span closes).length = closes.length := by
  cases closes with
  | nil => rfl
  | cons c cs => simp [emaList, List.length_scanl]

theorem length_diffs (closes : List ℚ) : (diffs closes).length = closes.length := by
  cases closes with
  | nil => rfl
  | cons c cs => simp [diffs]

theorem length_gainsOf (closes : List ℚ) : (gainsOf closes).length = closes.length := by
  simp [gainsOf, length_diffs]

theorem length_lossesOf (closes : List ℚ) : (lossesOf closes).length = closes.length := by
  simp [lossesOf, length_diffs]

theorem length_rsiList (p : ℕ) (closes : List ℚ) :
    (rsiList p closes).length = closes.length := by
  simp [rsiList, length_rollingMean, length_gainsOf, length_lossesOf]

theorem rangeMap_getD {α : Type} (f : ℕ → α) (d : α) {n i : ℕ} (h : i < n) :
    ((List.range n).map f).getD i d = f i := by
  rw [List.getD_eq_getElem _ _ (by simpa using h)]
  simp

theorem rollingMean_getD (n : ℕ) (xs : List ℚ) {i : ℕ} (h : i < xs.length) :
    (rollingMean n xs).getD i none =
      if n ≤ i + 1 then some (((xs.drop (i + 1 - n)).take n).sum / n) else none := by
  rw [rollingMean, rangeMap_getD _ _ h]

theorem rollingMax_getD (n : ℕ) (xs : List ℚ) {i : ℕ} (h : i < xs.length) :
    (rollingMax n xs).getD i none =
      if n ≤ i + 1 then listMax ((xs.drop (i + 1 - n)).take n) else none := by
  rw [rollingMax, rangeMap_getD _ _ h]

theorem rollingMin_getD (n : ℕ) (xs : List ℚ) {i : ℕ} (h : i < xs.length) :
    (rollingMin n xs).getD i none =
      if n ≤ i + 1 then listMin ((xs.drop (i + 1 - n)).take n) else none := by
  rw [rollingMin, rangeMap_getD _ _ h]

/-! ### The trailing window `(xs.drop (i+1-n)).take n` -/

theorem window_length (xs : List ℚ) {n i : ℕ} (hi : i < xs.length) (hn : n ≤ i + 1) :
    ((xs.drop (i + 1 - n)).take n).length = n := by
  simp only [List.length_take, List.length_drop]
  omega

theorem window_getD (xs : List ℚ) {n i j : ℕ} (hi : i < xs.length) (hn : n ≤ i + 1)
    (hj : j < n) :
    ((xs.drop (i + 1 - n)).take n).getD j 0 = xs.getD (i + 1 - n + j) 0 := by
  have hlen : ((xs.drop (i + 1 - n)).take n).length = n := window_length xs hi hn
  have hjd : j < (xs.drop (i + 1 - n)).length := by
    simp only [List.length_drop]; omega
  have hx : i + 1 - n + j < xs.length := by omega
  rw [List.getD_eq_getElem _ _ (by omega : j < ((xs.drop (i + 1 - n)).take n).length)]
  rw [List.getElem_take, List.getElem_drop]
  rw [List.getD_eq_getElem _ _ hx]

theorem mem_window (xs : List ℚ) {n i : ℕ} (hi : i < xs.length) (hn : n ≤ i + 1)
    {a : ℚ} :
    a ∈ (xs.drop (i + 1 - n)).take n ↔ ∃ j, j < n ∧ xs.getD (i + 1 - n + j) 0 = a := by
  have hlen : ((xs.drop (i + 1 - n)).take n).length = n := window_length xs hi hn
  constructor
  · intro ha
    obtain ⟨j, hj, hja⟩ := List.mem_iff_getElem.mp ha
    refine ⟨j, by omega, ?_⟩
    have h2 := window_getD xs hi hn (show j < n by omega)
    rw [← h2, List.getD_eq_getElem _ _ hj, hja]
  · rintro ⟨j, hj, hja⟩
    refine List.mem_iff_getElem.mpr ⟨j, by omega, ?_⟩
    have h2 := window_getD xs hi hn hj
    rw [List.getD_eq_getElem _ _ (show j < ((xs.drop (i + 1 - n)).take n).length by omega)]
      at h2
    rw [h2, hja]

theorem last_mem_window (xs : List ℚ) {n : ℕ} (hxs : xs ≠ []) (hn1 : 1 ≤ n)
    (hn : n ≤ xs.length) :
    xs.getD (xs.length - 1) 0 ∈ (xs.drop (xs.length - n)).take n := by
  have hi : xs.length - 1 < xs.length := by
    have := List.length_pos.mpr hxs
    omega
  have harith : xs.length - n = xs.length - 1 + 1 - n := by omega
  rw [harith]
  exact (mem_window xs hi (by omega : n ≤ xs.length - 1 + 1)).mpr
    ⟨n - 1, by omega, by congr 1; omega⟩

/-! ### Characterizing `listMax` and `listMin` -/

theorem foldl_max_init_le (l : List ℚ) (x : ℚ) : x ≤ l.foldl max x := by
  induction l generalizing x with
  | nil => exact le_refl x
  | cons a t ih => exact le_trans (le_max_left x a) (ih (max x a))

theorem foldl_max_le_of_mem {l : List ℚ} {a : ℚ} (x : ℚ) (h : a ∈ l) :
    a ≤ l.foldl max x := by
  induction l generalizing x with
  | nil => cases h
  | cons b t ih =>
    rcases List.mem_cons.mp h with hb | ht
    · subst hb
      exact le_trans (le_max_right x a) (foldl_max_init_le t (max x a))
    · exact ih (max x b) ht

theorem foldl_max_eq_or_mem (l : List ℚ) (x : ℚ) :
    l.foldl max x = x ∨ l.foldl max x ∈ l := by
  induction l generalizing x with
  | nil => exact Or.inl rfl
  | cons a t ih =>
    rcases ih (max x a) with h | h
    · rcases max_cases x a with ⟨hm, _⟩ | ⟨hm, _⟩
      · rw [List.foldl_cons, h, hm]; exact Or.inl rfl
      · rw [List.foldl_cons, h, hm]; exact Or.inr (List.mem_cons_self a t)
    · exact Or.inr (List.mem_cons_of_mem a h)

theorem listMax_spec {l : List ℚ} {m : ℚ} (h : listMax l = some m) :
    m ∈ l ∧ ∀ a ∈ l, a ≤ m := by
  cases l with
  | nil => cases h
  | cons x t =>
    have hm : t.foldl max x = m := by
      simpa [listMax] using h
    constructor
    · rcases foldl_max_eq_or_mem t x with h2 | h2
      · rw [← hm, h2]; exact List.mem_cons_self x t
      · rw [← hm]; exact List.mem_cons_of_mem x h2
    · intro a ha
      rcases List.mem_cons.mp ha with hax | hat
      · subst hax; rw [← hm]; exact foldl_max_init_le t a
      · rw [← hm]; exact foldl_max_le_of_mem x hat

theorem listMax_isSome {l : List ℚ} (h : l ≠ []) : ∃ m, listMax l = some m := by
  cases l with
  | nil => exact absurd rfl h
  | cons x t => exact ⟨t.foldl max x, rfl⟩

theorem foldl_min_init_le (l : List ℚ) (x : ℚ) : l.foldl min x ≤ x := by
  induction l generalizing x with
  | nil => exact le_refl x
  | cons a t ih => exact le_trans (ih (min x a)) (min_le_left x a)

theorem foldl_min_le_of_mem {l : List ℚ} {a : ℚ} (x : ℚ) (h : a ∈ l) :
    l.foldl min x ≤ a := by
  induction l generalizing x with
  | nil => cases h
  | cons b t ih =>
    rcases List.mem_cons.mp h with hb | ht
    · subst hb
      exact le_trans (foldl_min_init_le t (min x a)) (min_le_right x a)
    · exact ih (min x b) ht

theorem foldl_min_eq_or_mem (l : List ℚ) (x : ℚ) :
    l.foldl min x = x ∨ l.foldl min x ∈ l := by
  induction l generalizing x with
  | nil => exact Or.inl rfl
  | cons a t ih =>
    rcases ih (min x a) with h | h
    · rcases min_cases x a with ⟨hm, _⟩ | ⟨hm, _⟩
      · rw [List.foldl_cons, h, hm]; exact Or.inl rfl
      · rw [List.foldl_cons, h, hm]; exact Or.inr (List.mem_cons_self a t)
    · exact Or.inr (List.mem_cons_of_mem a h)

theorem listMin_spec {l : List ℚ} {m : ℚ} (h : listMin l = some m) :
    m ∈ l ∧ ∀ a ∈ l, m ≤ a := by
  cases l with
  | nil => cases h
  | cons x t =>
    have hm : t.foldl min x = m := by
      simpa [listMin] using h
    constructor
    · rcases foldl_min_eq_or_mem t x with h2 | h2
      · rw [← hm, h2]; exact List.mem_cons_self x t
      · rw [← hm]; exact List.mem_cons_of_mem x h2
    · intro a ha
      rcases List.mem_cons.mp ha with hax | hat
      · subst hax; rw [← hm]; exact foldl_min_init_le t a
      · rw [← hm]; exact foldl_min_le_of_mem x hat

theorem listMin_isSome {l : List ℚ} (h : l ≠ []) : ∃ m, listMin l = some m := by
  cases l with
  | nil => exact absurd rfl h
  | cons x t => exact ⟨t.foldl min x, rfl⟩

/-! ### List sums as indexed sums -/

theorem sum_take_eq_range (xs : List ℚ) :
    ∀ n, n ≤ xs.length → (xs.take n).sum = ∑ j ∈ Finset.range n, xs.getD j 0 := by
  induction xs with
  | nil =>
    intro n hn
    have hn0 : n = 0 := by simpa using hn
    subst hn0
    simp
  | cons x t ih =>
    intro n hn
    cases n with
    | zero => simp
    | succ m =>
      rw [List.take_succ_cons, List.sum_cons, Finset.sum_range_succ']
      have hm : m ≤ t.length := by simpa using hn
      rw [ih m hm]
      simp [add_comm]

theorem window_sum (xs : List ℚ) {n i : ℕ} (hi : i < xs.length) (hn : n ≤ i + 1) :
    ((xs.drop (i + 1 - n)).take n).sum = ∑ j ∈ Finset.range n, xs.getD (i + 1 - n + j) 0 := by
  have hdlen : n ≤ (xs.drop (i + 1 - n)).length := by
    simp only [List.length_drop]; omega
  rw [sum_take_eq_range _ n hdlen]
  refine Finset.sum_congr rfl ?_
  intro j hj
  have hjn : j < n := Finset.mem_range.mp hj
  have hdj : j < (xs.drop (i + 1 - n)).length := by omega
  rw [List.getD_eq_getElem _ _ hdj, List.getElem_drop,
    List.getD_eq_getElem _ _ (show i + 1 - n + j < xs.length by omega)]

/-! ### Indexing the EMA, diff, gain/loss and RSI columns -/

theorem emaList_getD_zero (span : ℕ) (c : ℚ) (cs : List ℚ) :
    (emaList span (c :: cs)).getD 0 0 = c := by
  rw [emaList, List.getD_eq_getElem _ _ (by simp [List.length_scanl])]
  exact List.getElem_scanl_zero

theorem emaList_getD_succ (span : ℕ) (closes : List ℚ) {i : ℕ}
    (h : i + 1 < closes.length) :
    (emaList span closes).getD (i + 1) 0 =
      emaAlpha span * closes.getD (i + 1) 0 +
        (1 - emaAlpha span) * (emaList span closes).getD i 0 := by
  cases closes with
  | nil => simp at h
  | cons c cs =>
    have hlen : (List.scanl (emaStep span) c cs).length = cs.length + 1 := by
      simp [List.length_scanl]
    have hi1 : i + 1 < (List.scanl (emaStep span) c cs).length := by
      simp only [hlen]; simpa using h
    rw [emaList, List.getD_eq_getElem _ _ hi1,
      List.getD_eq_getElem _ _ (show i < (List.scanl (emaStep span) c cs).length by omega),
      List.getD_eq_getElem _ _ (show i + 1 < (c :: cs).length by simpa using h)]
    rw [List.getElem_succ_scanl hi1]
    have hicst : i < cs.length := by simpa using h
    have hcs : (c :: cs)[i + 1] = cs[i] := by
      simp
    rw [emaStep, hcs]

theorem diffs_getD_zero (c : ℚ) (cs : List ℚ) : (diffs (c :: cs)).getD 0 none = none := by
  rfl

theorem diffs_getD (closes : List ℚ) {k : ℕ} (h1 : 1 ≤ k) (h2 : k < closes.length) :
    (diffs closes).getD k none = some (closes.getD k 0 - closes.getD (k - 1) 0) := by
  cases closes with
  | nil => simp at h2
  | cons c cs =>
    obtain ⟨j, rfl⟩ : ∃ j, k = j + 1 := ⟨k - 1, by omega⟩
    have hj : j < cs.length := by simpa using h2
    have hzip : (List.zipWith (fun prev cur => some (cur - prev)) (c :: cs) cs).length
        = cs.length := by
      simp
    rw [diffs, List.getD_cons_succ, List.getD_eq_getElem _ _ (by omega), List.getElem_zipWith]
    rw [List.getD_eq_getElem _ _ (show j + 1 < (c :: cs).length by simpa using h2),
      List.getD_eq_getElem _ _ (show j + 1 - 1 < (c :: cs).length by simp; omega)]
    simp

theorem gainsOf_getD (closes : List ℚ) {k : ℕ} (h1 : 1 ≤ k) (h2 : k < closes.length) :
    (gainsOf closes).getD k 0 = max (closes.getD k 0 - closes.getD (k - 1) 0) 0 := by
  have hd := diffs_getD closes h1 h2
  have hk : k < (diffs closes).length := by rw [length_diffs]; exact h2
  rw [List.getD_eq_getElem _ _ hk] at hd
  have hk2 : k < (gainsOf closes).length := by rw [length_gainsOf]; exact h2
  rw [List.getD_eq_getElem _ _ hk2]
  simp only [gainsOf] at hk2 ⊢
  rw [List.getElem_map, hd]
  show (if 0 < closes.getD k 0 - closes.getD (k - 1) 0
      then closes.getD k 0 - closes.getD (k - 1) 0 else 0) = _
  split_ifs with hpos
  · exact (max_eq_left hpos.le).symm
  · exact (max_eq_right (not_lt.mp hpos)).symm

theorem lossesOf_getD (closes : List ℚ) {k : ℕ} (h1 : 1 ≤ k) (h2 : k < closes.length) :
    (lossesOf closes).getD k 0 = max (-(closes.getD k 0 - closes.getD (k - 1) 0)) 0 := by
  have hd := diffs_getD closes h1 h2
  have hk : k < (diffs closes).length := by rw [length_diffs]; exact h2
  rw [List.getD_eq_getElem _ _ hk] at hd
  have hk2 : k < (lossesOf closes).length := by rw [length_lossesOf]; exact h2
  rw [List.getD_eq_getElem _ _ hk2]
  simp only [lossesOf] at hk2 ⊢
  rw [List.getElem_map, hd]
  show (if closes.getD k 0 - closes.getD (k - 1) 0 < 0
      then -(closes.getD k 0 - closes.getD (k - 1) 0) else 0) = _
  split_ifs with hneg
  · exact (max_eq_left (by linarith)).symm
  · exact (max_eq_right (by linarith)).symm

theorem rsiList_getD (p : ℕ) (closes : List ℚ) {i : ℕ} (h : i < closes.length) :
    (rsiList p closes).getD i none =
      rsiFromAvgs ((rollingMean p (gainsOf closes)).getD i none)
        ((rollingMean p (lossesOf closes)).getD i none) := by
  have hg : i < (rollingMean p (gainsOf closes)).length := by
    rw [length_rollingMean, length_gainsOf]; exact h
  have hl : i < (rollingMean p (lossesOf closes)).length := by
    rw [length_rollingMean, length_lossesOf]; exact h
  have hz : i < (rsiList p closes).length := by rw [length_rsiList]; exact h
  rw [rsiList] at hz ⊢
  rw [List.getD_eq_getElem _ _ hz, List.getElem_zipWith,
    List.getD_eq_getElem _ _ hg, List.getD_eq_getElem _ _ hl]

theorem mapBar_getD (f : Bar → ℚ) (bars : List Bar) {k : ℕ} (h : k < bars.length) :
    (bars.map f).getD k 0 = f (bars.getD k default) := by
  rw [List.getD_eq_getElem _ _ (by simpa using h), List.getElem_map,
    List.getD_eq_getElem _ _ h]

/-! ### Unfolding `check_signal` -/

theorem calculate_indicators_bars (ef es rp sp : ℕ) (bars : List Bar) :
    (calculate_indicators ef es rp sp bars).bars = bars := rfl

theorem check_signal_send_false (df : IndicatorFrame) : check_signal df false = none := by
  rw [check_signal]
  split
  · rfl
  · split <;> rfl

theorem check_signal_short {df : IndicatorFrame} (h : df.bars.length < 50)
    (sendOk : Bool) : check_signal df sendOk = none := by
  rw [check_signal]
  simp [h]

theorem check_signal_no_buy {df : IndicatorFrame} (h : buy_conditions df = false)
    (sendOk : Bool) : check_signal df sendOk = none := by
  rw [check_signal]
  split
  · rfl
  · simp [h]

theorem check_signal_fires {df : IndicatorFrame} (h50 : 50 ≤ df.bars.length)
    (hbuy : buy_conditions df = true) :
    check_signal df true =
      some { type := "BUY"
             price := (df.bars.getD (df.bars.length - 1) default).close
             sl := df.support.getD (df.bars.length - 1) none
             tp1 := (df.support.getD (df.bars.length - 1) none).map fun s =>
               (df.bars.getD (df.bars.length - 1) default).close +
                 ((df.bars.getD (df.bars.length - 1) default).close - s)
             tp2 := (df.support.getD (df.bars.length - 1) none).map fun s =>
               (df.bars.getD (df.bars.length - 1) default).close +
                 ((df.bars.getD (df.bars.length - 1) default).close - s) * (3 / 2)
             rsi := df.rsi.getD (df.bars.length - 1) none } := by
  rw [check_signal]
  rw [if_neg (by omega), if_pos hbuy, if_pos rfl]
  simp only [Option.map_map]
  rfl

/-! ### Claim C4: the adjust=false EMA recurrence -/

/-- Auxiliary recurrence characterization of `emaList`. -/
theorem emaList_recurrence (span : ℕ) (closes : List ℚ) (hne : closes ≠ []) :
    (emaList span closes).length = closes.length ∧
    (emaList span closes).getD 0 0 = closes.getD 0 0 ∧
    ∀ i, 1 ≤ i → i < closes.length →
      (emaList span closes).getD i 0 =
        2 / (span + 1) * closes.getD i 0 +
          (1 - 2 / (span + 1)) * (emaList span closes).getD (i - 1) 0 := by
  refine ⟨length_emaList span closes, ?_, ?_⟩
  · cases closes with
    | nil => exact absurd rfl hne
    | cons c cs => rw [emaList_getD_zero]; rfl
  · intro i h1 hi
    obtain ⟨j, rfl⟩ : ∃ j, i = j + 1 := ⟨i - 1, by omega⟩
    have := emaList_getD_succ span closes (by omega : j + 1 < closes.length)
    rw [this, emaAlpha]
    norm_num

/-- C4. On every non-empty series, the `ema_fast` and `ema_slow` columns
satisfy the adjust=false recursion with `α = 2/(span+1)` for their
respective spans: `ema[0] = close[0]` and
`ema[i] = α·close[i] + (1-α)·ema[i-1]`; and for span 3 on closes
`[10,11,12,11,10]` the output is `[10, 10.5, 11.25, 11.125, 10.5625]`. -/
theorem ema_adjust_false_recurrence (ef es rp sp : ℕ) (bars : List Bar)
    (hne : bars ≠ []) :
    (((calculate_indicators ef es rp sp bars).ema_fast.length = bars.length ∧
      (calculate_indicators ef es rp sp bars).ema_fast.getD 0 0 =
        (bars.getD 0 default).close ∧
      ∀ i, 1 ≤ i → i < bars.length →
        (calculate_indicators ef es rp sp bars).ema_fast.getD i 0 =
          2 / (ef + 1) * (bars.getD i default).close +
            (1 - 2 / (ef + 1)) *
              (calculate_indicators ef es rp sp bars).ema_fast.getD (i - 1) 0) ∧
     ((calculate_indicators ef es rp sp bars).ema_slow.length = bars.length ∧
      (calculate_indicators ef es rp sp bars).ema_slow.getD 0 0 =
        (bars.getD 0 default).close ∧
      ∀ i, 1 ≤ i → i < bars.length →
        (calculate_indicators ef es rp sp bars).ema_slow.getD i 0 =
          2 / (es + 1) * (bars.getD i default).close +
            (1 - 2 / (es + 1)) *
              (calculate_indicators ef es rp sp bars).ema_slow.getD (i - 1) 0)) ∧
    emaList 3 [10, 11, 12, 11, 10] = [10, 10.5, 11.25, 11.125, 10.5625] := by
  have hmapne : bars.map Bar.close ≠ [] := by
    intro hcon
    exact hne (List.map_eq_nil_iff.mp hcon)
  have hlen : (bars.map Bar.close).length = bars.length := List.length_map _ _
  have hpos : 0 < bars.length := by
    cases bars with
    | nil => exact absurd rfl hne
    | cons b bs => simp
  have hf := emaList_recurrence ef (bars.map Bar.close) hmapne
  have hs := emaList_recurrence es (bars.map Bar.close) hmapne
  refine ⟨⟨⟨?_, ?_, ?_⟩, ⟨?_, ?_, ?_⟩⟩, ?_⟩
  · show (emaList ef (bars.map Bar.close)).length = bars.length
    rw [hf.1, hlen]
  · show (emaList ef (bars.map Bar.close)).getD 0 0 = (bars.getD 0 default).close
    rw [hf.2.1, mapBar_getD Bar.close bars hpos]
  · intro i h1 hi
    show (emaList ef (bars.map Bar.close)).getD i 0 =
      2 / (ef + 1) * (bars.getD i default).close +
        (1 - 2 / (ef + 1)) * (emaList ef (bars.map Bar.close)).getD (i - 1) 0
    rw [hf.2.2 i h1 (by omega), mapBar_getD Bar.close bars hi]
  · show (emaList es (bars.map Bar.close)).length = bars.length
    rw [hs.1, hlen]
  · show (emaList es (bars.map Bar.close)).getD 0 0 = (bars.getD 0 default).close
    rw [hs.2.1, mapBar_getD Bar.close bars hpos]
  · intro i h1 hi
    show (emaList es (bars.map Bar.close)).getD i 0 =
      2 / (es + 1) * (bars.getD i default).close +
        (1 - 2 / (es + 1)) * (emaList es (bars.map Bar.close)).getD (i - 1) 0
    rw [hs.2.2 i h1 (by omega), mapBar_getD Bar.close bars hi]
  · norm_num [emaList, emaStep, emaAlpha, List.scanl]

/-- Witness for C4: the `ema_fast` recurrence of the 9/20 configuration
instantiated on a three-bar series at index 1. -/
theorem ema_adjust_false_recurrence_witness :
    (shortBars ≠ [] ∧ 1 ≤ 1 ∧ 1 < shortBars.length) ∧
    (calculate_indicators 9 20 14 20 shortBars).ema_fast.getD 1 0 =
      2 / (9 + 1) * (shortBars.getD 1 default).close +
        (1 - 2 / (9 + 1)) *
          (calculate_indicators 9 20 14 20 shortBars).ema_fast.getD 0 0 :=
  ⟨⟨by decide, by decide, by decide⟩,
    (ema_adjust_false_recurrence 9 20 14 20 shortBars
      (by decide)).1.1.2.2 1 (by decide) (by decide)⟩

/-! ### Claim C7: resistance/support rolling windows -/

/-- C7. The `resistance` column at row `i` is the maximum of `high` over the
trailing `sr_period` rows inclusive of row `i`, `support` the minimum of
`low` over the same window, both undefined for `i < sr_period - 1`; and for
window 3 and highs `[1,5,3,7,2]` the resistance column is
`[undef, undef, 5, 7, 7]`. -/
theorem resistance_support_rolling_window (ef es rp sp : ℕ) (bars : List Bar)
    (i : ℕ) (hsp : 0 < sp) (hi : i < bars.length) :
    ((i + 1 < sp →
        (calculate_indicators ef es rp sp bars).resistance.getD i none = none ∧
        (calculate_indicators ef es rp sp bars).support.getD i none = none) ∧
      (sp ≤ i + 1 →
        (∃ m, (calculate_indicators ef es rp sp bars).resistance.getD i none = some m ∧
          (∃ j, i < j + sp ∧ j ≤ i ∧ (bars.getD j default).high = m) ∧
          ∀ j, i < j + sp → j ≤ i → (bars.getD j default).high ≤ m) ∧
        (∃ m, (calculate_indicators ef es rp sp bars).support.getD i none = some m ∧
          (∃ j, i < j + sp ∧ j ≤ i ∧ (bars.getD j default).low = m) ∧
          ∀ j, i < j + sp → j ≤ i → m ≤ (bars.getD j default).low))) ∧
    (calculate_indicators 9 20 14 3 c7Bars).resistance =
      [none, none, some 5, some 7, some 7] := by
  have hihigh : i < (bars.map Bar.high).length := by simpa using hi
  have hilow : i < (bars.map Bar.low).length := by simpa using hi
  constructor
  · constructor
    · intro hlt
      constructor
      · show (rollingMax sp (bars.map Bar.high)).getD i none = none
        rw [rollingMax_getD sp _ hihigh, if_neg (by omega)]
      · show (rollingMin sp (bars.map Bar.low)).getD i none = none
        rw [rollingMin_getD sp _ hilow, if_neg (by omega)]
    · intro hle
      have hwinlen : (((bars.map Bar.high).drop (i + 1 - sp)).take sp).length = sp :=
        window_length _ hihigh hle
      have hwinlen2 : (((bars.map Bar.low).drop (i + 1 - sp)).take sp).length = sp :=
        window_length _ hilow hle
      constructor
      · obtain ⟨m, hm⟩ := listMax_isSome
          (show ((bars.map Bar.high).drop (i + 1 - sp)).take sp ≠ [] by
            intro hcon; rw [hcon] at hwinlen; simp at hwinlen; omega)
        obtain ⟨hmem, hbound⟩ := listMax_spec hm
        refine ⟨m, ?_, ?_, ?_⟩
        · show (rollingMax sp (bars.map Bar.high)).getD i none = some m
          rw [rollingMax_getD sp _ hihigh, if_pos hle, hm]
        · obtain ⟨j, hj, hjm⟩ := (mem_window _ hihigh hle).mp hmem
          refine ⟨i + 1 - sp + j, by omega, by omega, ?_⟩
          rw [← mapBar_getD Bar.high bars (show i + 1 - sp + j < bars.length by omega), hjm]
        · intro j hj1 hj2
          have hjmem : (bars.getD j default).high ∈
              ((bars.map Bar.high).drop (i + 1 - sp)).take sp :=
            (mem_window (bars.map Bar.high) hihigh hle).mpr
              ⟨j - (i + 1 - sp), by omega, by
                rw [show i + 1 - sp + (j - (i + 1 - sp)) = j by omega,
                  mapBar_getD Bar.high bars (by omega)]⟩
          exact hbound _ hjmem
      · obtain ⟨m, hm⟩ := listMin_isSome
          (show ((bars.map Bar.low).drop (i + 1 - sp)).take sp ≠ [] by
            intro hcon; rw [hcon] at hwinlen2; simp at hwinlen2; omega)
        obtain ⟨hmem, hbound⟩ := listMin_spec hm
        refine ⟨m, ?_, ?_, ?_⟩
        · show (rollingMin sp (bars.map Bar.low)).getD i none = some m
          rw [rollingMin_getD sp _ hilow, if_pos hle, hm]
        · obtain ⟨j, hj, hjm⟩ := (mem_window _ hilow hle).mp hmem
          refine ⟨i + 1 - sp + j, by omega, by omega, ?_⟩
          rw [← mapBar_getD Bar.low bars (show i + 1 - sp + j < bars.length by omega), hjm]
        · intro j hj1 hj2
          have hjmem : (bars.getD j default).low ∈
              ((bars.map Bar.low).drop (i + 1 - sp)).take sp :=
            (mem_window (bars.map Bar.low) hilow hle).mpr
              ⟨j - (i + 1 - sp), by omega, by
                rw [show i + 1 - sp + (j - (i + 1 - sp)) = j by omega,
                  mapBar_getD Bar.low bars (by omega)]⟩
          exact hbound _ hjmem
  · decide

/-- Witness for C7: the rolling-window characterization instantiated at
window 3, the example bars, row 3. -/
theorem resistance_support_rolling_window_witness :
    (0 < 3 ∧ 3 < c7Bars.length ∧ 3 ≤ 3 + 1) ∧
    (∃ m, (calculate_indicators 9 20 14 3 c7Bars).resistance.getD 3 none = some m ∧
      (∃ j, 3 < j + 3 ∧ j ≤ 3 ∧ (c7Bars.getD j default).high = m) ∧
      ∀ j, 3 < j + 3 → j ≤ 3 → (c7Bars.getD j default).high ≤ m) :=
  ⟨⟨by decide, by decide, by decide⟩,
    (((resistance_support_rolling_window 9 20 14 3 c7Bars 3 (by decide)
      (by decide)).1.2 (by decide)).1)⟩

/-! ### Claim C2: no buy signal on invariant-respecting data -/

/-- C2. On any series whose bars satisfy `close ≤ high`, `check_signal`
returns `None`: the resistance at the last row is the maximum of `high`
over a window containing that row, so the breakout condition
`close > resistance` cannot hold. -/
theorem no_signal_on_ohlc_invariant (ef es rp sp : ℕ) (bars : List Bar)
    (sendOk : Bool) (hinv : ∀ b ∈ bars, b.close ≤ b.high) :
    check_signal (calculate_indicators ef es rp sp bars) sendOk = none := by
  set df := calculate_indicators ef es rp sp bars with hdf
  by_cases hn : df.bars.length < 50
  · exact check_signal_short hn sendOk
  · have hbars : df.bars = bars := rfl
    have hn2 : 50 ≤ bars.length := by rw [hbars] at hn; omega
    have hne : bars ≠ [] := by intro hcon; rw [hcon] at hn2; simp at hn2
    refine check_signal_no_buy ?_ sendOk
    have hihigh : bars.length - 1 < (bars.map Bar.high).length := by
      simp only [List.length_map]; omega
    have hfirst : gtNan (bars.getD (bars.length - 1) default).close
        (df.resistance.getD (bars.length - 1) none) = false := by
      have hres : df.resistance = rollingMax sp (bars.map Bar.high) := rfl
      rw [hres, rollingMax_getD sp _ hihigh]
      by_cases hsp : sp ≤ bars.length - 1 + 1
      · rw [if_pos hsp]
        rcases Nat.eq_zero_or_pos sp with hsp0 | hsp1
        · subst hsp0
          simp [listMax, gtNan]
        · have hmem := last_mem_window (bars.map Bar.high)
            (by simpa using hne) hsp1 (by simpa using le_trans hsp (by omega))
          have harith : bars.length - 1 + 1 - sp = (bars.map Bar.high).length - sp := by
            simp only [List.length_map]; omega
          rw [harith]
          obtain ⟨m, hm⟩ := listMax_isSome
            (show ((bars.map Bar.high).drop ((bars.map Bar.high).length - sp)).take sp ≠ []
              by
                intro hcon
                have := window_length (bars.map Bar.high)
                  (show (bars.map Bar.high).length - 1 < (bars.map Bar.high).length by
                    simp only [List.length_map]; omega)
                  (show sp ≤ (bars.map Bar.high).length - 1 + 1 by
                    simp only [List.length_map]; omega)
                rw [show (bars.map Bar.high).length - 1 + 1 - sp
                    = (bars.map Bar.high).length - sp by omega, hcon] at this
                simp at this
                omega)
          rw [hm]
          obtain ⟨_, hbound⟩ := listMax_spec hm
          have hhigh : (bars.map Bar.high).getD ((bars.map Bar.high).length - 1) 0
              = (bars.getD (bars.length - 1) default).high := by
            rw [List.length_map]
            exact mapBar_getD Bar.high bars (by omega)
          have hclosele : (bars.getD (bars.length - 1) default).close
              ≤ (bars.getD (bars.length - 1) default).high := by
            refine hinv _ ?_
            rw [List.getD_eq_getElem _ _ (show bars.length - 1 < bars.length by omega)]
            exact List.getElem_mem _
          have hle : (bars.getD (bars.length - 1) default).close ≤ m := by
            refine le_trans hclosele ?_
            rw [← hhigh]
            exact hbound _ hmem
          show gtNan _ (some m) = false
          rw [gtNan]
          exact decide_eq_false (not_lt.mpr hle)
      · rw [if_neg hsp]
        rfl
    rw [buy_conditions]
    have hbars2 : df.bars.length = bars.length := by rw [hbars]
    simp only [hbars, hbars2] at hfirst ⊢
    rw [hfirst]
    simp

/-- Witness for C2: a 50-bar constant series with `close ≤ high`. -/
theorem no_signal_on_ohlc_invariant_witness :
    (∀ b ∈ List.replicate 50 (⟨0, 100, 101, 99, 100, 10⟩ : Bar), b.close ≤ b.high) ∧
    check_signal
      (calculate_indicators 9 20 14 20 (List.replicate 50 (⟨0, 100, 101, 99, 100, 10⟩ : Bar)))
      true = none :=
  ⟨by decide,
    no_signal_on_ohlc_invariant 9 20 14 20 _ true (by decide)⟩

/-! ### Claims C5 and C6: the RSI column -/

theorem gainsOf_getD_zero (closes : List ℚ) : (gainsOf closes).getD 0 0 = 0 := by
  cases closes with
  | nil => rfl
  | cons c cs => rfl

theorem lossesOf_getD_zero (closes : List ℚ) : (lossesOf closes).getD 0 0 = 0 := by
  cases closes with
  | nil => rfl
  | cons c cs => rfl

theorem avgGain_eq_spec (p : ℕ) (closes : List ℚ) {i : ℕ}
    (hpi : p ≤ i) (hi : i < closes.length) :
    (rollingMean p (gainsOf closes)).getD i none = some (specAvgGain p closes i) := by
  have hgl : i < (gainsOf closes).length := by rw [length_gainsOf]; exact hi
  rw [rollingMean_getD p _ hgl, if_pos (by omega)]
  rw [window_sum _ hgl (by omega : p ≤ i + 1)]
  have hsum : (∑ j ∈ Finset.range p, (gainsOf closes).getD (i + 1 - p + j) 0)
      = ∑ j ∈ Finset.range p, max (specDelta closes (i - j)) 0 := by
    rw [← Finset.sum_range_reflect (fun j => max (specDelta closes (i - j)) 0) p]
    refine Finset.sum_congr rfl ?_
    intro j hj
    have hjp : j < p := Finset.mem_range.mp hj
    rw [gainsOf_getD closes (show 1 ≤ i + 1 - p + j by omega)
      (show i + 1 - p + j < closes.length by omega)]
    rw [specDelta]
    congr 3 <;> omega
  rw [hsum]
  rfl

theorem avgLoss_eq_spec (p : ℕ) (closes : List ℚ) {i : ℕ}
    (hpi : p ≤ i) (hi : i < closes.length) :
    (rollingMean p (lossesOf closes)).getD i none = some (specAvgLoss p closes i) := by
  have hll : i < (lossesOf closes).length := by rw [length_lossesOf]; exact hi
  rw [rollingMean_getD p _ hll, if_pos (by omega)]
  rw [window_sum _ hll (by omega : p ≤ i + 1)]
  have hsum : (∑ j ∈ Finset.range p, (lossesOf closes).getD (i + 1 - p + j) 0)
      = ∑ j ∈ Finset.range p, max (-(specDelta closes (i - j))) 0 := by
    rw [← Finset.sum_range_reflect (fun j => max (-(specDelta closes (i - j))) 0) p]
    refine Finset.sum_congr rfl ?_
    intro j hj
    have hjp : j < p := Finset.mem_range.mp hj
    rw [show i - (p - 1 - j) = i + 1 - p + j from by omega]
    rw [lossesOf_getD closes (show 1 ≤ i + 1 - p + j by omega)
      (show i + 1 - p + j < closes.length by omega)]
    rw [specDelta]
  rw [hsum]
  rfl

theorem avgGain_boundary (p : ℕ) (closes : List ℚ) {i : ℕ} (hp : 0 < p)
    (hip : i + 1 = p) (hi : i < closes.length) :
    (rollingMean p (gainsOf closes)).getD i none =
      some ((∑ j ∈ Finset.range (p - 1), max (specDelta closes (i - j)) 0) / p) := by
  have hgl : i < (gainsOf closes).length := by rw [length_gainsOf]; exact hi
  rw [rollingMean_getD p _ hgl, if_pos (by omega)]
  rw [window_sum _ hgl (by omega : p ≤ i + 1)]
  have hz : i + 1 - p = 0 := by omega
  rw [hz]
  obtain ⟨q, rfl⟩ : ∃ q, p = q + 1 := ⟨p - 1, by omega⟩
  have hiq : i = q := by omega
  subst hiq
  have hsum : (∑ j ∈ Finset.range (i + 1), (gainsOf closes).getD (0 + j) 0)
      = ∑ j ∈ Finset.range (i + 1 - 1), max (specDelta closes (i - j)) 0 := by
    rw [Finset.sum_range_succ']
    simp only [Nat.zero_add, Nat.add_sub_cancel]
    rw [gainsOf_getD_zero, add_zero]
    rw [← Finset.sum_range_reflect (fun j => max (specDelta closes (i - j)) 0) i]
    refine Finset.sum_congr rfl ?_
    intro j hj
    have hjq : j < i := Finset.mem_range.mp hj
    rw [gainsOf_getD closes (by omega) (by omega)]
    rw [specDelta]
    congr 3 <;> omega
  rw [hsum]

theorem avgLoss_boundary (p : ℕ) (closes : List ℚ) {i : ℕ} (hp : 0 < p)
    (hip : i + 1 = p) (hi : i < closes.length) :
    (rollingMean p (lossesOf closes)).getD i none =
      some ((∑ j ∈ Finset.range (p - 1), max (-(specDelta closes (i - j))) 0) / p) := by
  have hll : i < (lossesOf closes).length := by rw [length_lossesOf]; exact hi
  rw [rollingMean_getD p _ hll, if_pos (by omega)]
  rw [window_sum _ hll (by omega : p ≤ i + 1)]
  have hz : i + 1 - p = 0 := by omega
  rw [hz]
  obtain ⟨q, rfl⟩ : ∃ q, p = q + 1 := ⟨p - 1, by omega⟩
  have hiq : i = q := by omega
  subst hiq
  have hsum : (∑ j ∈ Finset.range (i + 1), (lossesOf closes).getD (0 + j) 0)
      = ∑ j ∈ Finset.range (i + 1 - 1), max (-(specDelta closes (i - j))) 0 := by
    rw [Finset.sum_range_succ']
    simp only [Nat.zero_add, Nat.add_sub_cancel]
    rw [lossesOf_getD_zero, add_zero]
    rw [← Finset.sum_range_reflect (fun j => max (-(specDelta closes (i - j))) 0) i]
    refine Finset.sum_congr rfl ?_
    intro j hj
    have hjq : j < i := Finset.mem_range.mp hj
    rw [show i - (i - 1 - j) = j + 1 from by omega]
    rw [lossesOf_getD closes (by omega) (by omega)]
    rw [specDelta]
  rw [hsum]

/-- Auxiliary: the three-case characterization of `rsiList`. -/
theorem rsiList_formula_aux (p : ℕ) (closes : List ℚ) (i : ℕ)
    (hp : 0 < p) (hi : i < closes.length) :
    (p ≤ i → specAvgLoss p closes i ≠ 0 →
      (rsiList p closes).getD i none =
        some (100 - 100 / (1 + specAvgGain p closes i / specAvgLoss p closes i))) ∧
    (i + 1 < p → (rsiList p closes).getD i none = none) ∧
    (i + 1 = p →
      (rsiList p closes).getD i none =
        rsiFromAvgs
          (some ((∑ j ∈ Finset.range (p - 1), max (specDelta closes (i - j)) 0) / p))
          (some ((∑ j ∈ Finset.range (p - 1), max (-(specDelta closes (i - j))) 0) / p))) := by
  refine ⟨?_, ?_, ?_⟩
  · intro hpi hlz
    rw [rsiList_getD p closes hi, avgGain_eq_spec p closes hpi hi,
      avgLoss_eq_spec p closes hpi hi]
    rw [rsiFromAvgs]
    rw [if_neg hlz]
  · intro hlt
    have hgl : i < (gainsOf closes).length := by rw [length_gainsOf]; exact hi
    have hll : i < (lossesOf closes).length := by rw [length_lossesOf]; exact hi
    rw [rsiList_getD p closes hi, rollingMean_getD p _ hgl, rollingMean_getD p _ hll,
      if_neg (by omega), if_neg (by omega)]
    rfl
  · intro hip
    rw [rsiList_getD p closes hi, avgGain_boundary p closes hp hip hi,
      avgLoss_boundary p closes hp hip hi]

/-- C5 (amended). For `i ≥ rsi_period` the rsi column is
`100 - 100/(1 + avg_gain/avg_loss)` with the simple rolling means (not
Wilder smoothing) of the `rsi_period` trailing deltas (whenever
`avg_loss ≠ 0`); it is undefined for `i < rsi_period - 1`; but — contrary
to the claim as stated — it is already computed at `i = rsi_period - 1`,
where the undefined delta of row 0 enters the window as zero gain and
zero loss (the boundary sums below run over the `rsi_period - 1` existing
deltas yet are still divided by `rsi_period`). -/
theorem rsi_simple_rolling_mean_formula (ef es rp sp : ℕ) (bars : List Bar)
    (i : ℕ) (hp : 0 < rp) (hi : i < bars.length) :
    (rp ≤ i → specAvgLoss rp (bars.map Bar.close) i ≠ 0 →
      (calculate_indicators ef es rp sp bars).rsi.getD i none =
        some (100 - 100 / (1 + specAvgGain rp (bars.map Bar.close) i /
          specAvgLoss rp (bars.map Bar.close) i))) ∧
    (i + 1 < rp → (calculate_indicators ef es rp sp bars).rsi.getD i none = none) ∧
    (i + 1 = rp →
      (calculate_indicators ef es rp sp bars).rsi.getD i none =
        rsiFromAvgs
          (some ((∑ j ∈ Finset.range (rp - 1),
            max (specDelta (bars.map Bar.close) (i - j)) 0) / rp))
          (some ((∑ j ∈ Finset.range (rp - 1),
            max (-(specDelta (bars.map Bar.close) (i - j))) 0) / rp))) :=
  rsiList_formula_aux rp (bars.map Bar.close) i hp
    (by rw [List.length_map]; exact hi)

/-- Witness for C5: the main formula instantiated at period 2 on the
three-bar series with closes `[3, 2, 4]`, row 2 (`avg_gain = 1`,
`avg_loss = 1/2`, `rsi = 100 - 100/3`). -/
theorem rsi_simple_rolling_mean_formula_witness :
    (0 < 2 ∧ 2 < c5wBars.length ∧ 2 ≤ 2 ∧
      specAvgLoss 2 (c5wBars.map Bar.close) 2 ≠ 0) ∧
    (calculate_indicators 9 20 2 20 c5wBars).rsi.getD 2 none =
      some (100 - 100 / (1 + specAvgGain 2 (c5wBars.map Bar.close) 2 /
        specAvgLoss 2 (c5wBars.map Bar.close) 2)) := by
  have hmap : c5wBars.map Bar.close = [3, 2, 4] := by decide
  have hlz : specAvgLoss 2 (c5wBars.map Bar.close) 2 ≠ 0 := by
    rw [hmap]
    norm_num [specAvgLoss, specDelta, Finset.sum_range_succ]
  exact ⟨⟨by decide, by decide, by decide, hlz⟩,
    (rsi_simple_rolling_mean_formula 9 20 2 20 c5wBars 2 (by decide) (by decide)).1
      (by decide) hlz⟩

/-- Counterexample to C5 as stated: the claim says rsi is undefined at
every index with fewer than `rsi_period` deltas available (index 1 has one
delta, fewer than period 2), but with period 2 and closes `[1, 2, 3]`
the code defines rsi at index 1 — the `where`-clause of the source turns
the undefined delta of row 0 into a zero gain/loss, so the rolling window
is already full there (`avg_gain = 1/2, avg_loss = 0 ⇒ rsi = 100`). -/
theorem rsi_defined_below_period_counterexample :
    (1 : ℕ) < 2 ∧
    (calculate_indicators 9 20 2 20 c5xBars).rsi.getD 1 none = some 100 := by
  refine ⟨by decide, ?_⟩
  show (rsiList 2 (c5xBars.map Bar.close)).getD 1 none = some 100
  rw [show c5xBars.map Bar.close = [1, 2, 3] from by decide]
  norm_num [rsiList, rollingMean, gainsOf, lossesOf, diffs, rsiFromAvgs,
    List.range_succ]

/-- C6. Whenever the rolling average loss at a row is exactly zero and the
rolling average gain is positive, the rsi value is exactly 100 (the
division-by-zero case is absorbed by the saturation policy, not
propagated as an undefined value). -/
theorem rsi_saturates_at_100 (ef es rp sp : ℕ) (bars : List Bar) (i : ℕ) (g : ℚ)
    (hl : (rollingMean rp (lossesOf (bars.map Bar.close))).getD i none = some 0)
    (hg : (rollingMean rp (gainsOf (bars.map Bar.close))).getD i none = some g)
    (hgpos : 0 < g) :
    (calculate_indicators ef es rp sp bars).rsi.getD i none = some 100 := by
  have hi : i < (bars.map Bar.close).length := by
    by_contra hcon
    rw [List.getD_eq_default _ _
      (by rw [length_rollingMean, length_lossesOf]; omega)] at hl
    cases hl
  show (rsiList rp (bars.map Bar.close)).getD i none = some 100
  rw [rsiList_getD rp (bars.map Bar.close) hi, hl, hg, rsiFromAvgs]
  rw [if_pos rfl, if_neg (ne_of_gt hgpos)]

/-- Witness for C6: period 2 on the strictly increasing closes
`[1, 2, 3, 4]` at the last row, where `avg_loss = 0` and `avg_gain = 1`. -/
theorem rsi_saturates_at_100_witness :
    ((rollingMean 2 (lossesOf (c6wBars.map Bar.close))).getD 3 none = some 0 ∧
      (rollingMean 2 (gainsOf (c6wBars.map Bar.close))).getD 3 none = some 1 ∧
      (0 : ℚ) < 1) ∧
    (calculate_indicators 9 20 2 20 c6wBars).rsi.getD 3 none = some 100 := by
  have hmap : c6wBars.map Bar.close = [1, 2, 3, 4] := by decide
  have hl : (rollingMean 2 (lossesOf (c6wBars.map Bar.close))).getD 3 none = some 0 := by
    rw [hmap]
    norm_num [rollingMean, lossesOf, diffs, List.range_succ]
  have hg : (rollingMean 2 (gainsOf (c6wBars.map Bar.close))).getD 3 none = some 1 := by
    rw [hmap]
    norm_num [rollingMean, gainsOf, diffs, List.range_succ]
  exact ⟨⟨hl, hg, by decide⟩,
    rsi_saturates_at_100 9 20 2 20 c6wBars 3 1 hl hg (by decide)⟩

/-! ### Claim C3: the five buy conditions -/

theorem gtNan_eq_true_iff (x : ℚ) (y? : Option ℚ) :
    gtNan x y? = true ↔ ∃ y, y? = some y ∧ y < x := by
  cases y? <;> simp [gtNan]

theorem rsiBand_eq_true_iff (x? : Option ℚ) :
    (match x? with
      | some r => decide (40 < r) && decide (r < 70)
      | none => false) = true ↔ ∃ x, x? = some x ∧ 40 < x ∧ x < 70 := by
  cases x? <;> simp

theorem rollingMean_last (w : ℕ) (xs : List ℚ) (hw : 0 < w) (hlen : w ≤ xs.length) :
    (rollingMean w xs).getD (xs.length - 1) none =
      some ((∑ j ∈ Finset.range w, xs.getD (xs.length - 1 - j) 0) / w) := by
  have hi : xs.length - 1 < xs.length := by omega
  rw [rollingMean_getD w xs hi, if_pos (by omega)]
  rw [window_sum xs hi (by omega)]
  have hsum : (∑ j ∈ Finset.range w, xs.getD (xs.length - 1 + 1 - w + j) 0)
      = ∑ j ∈ Finset.range w, xs.getD (xs.length - 1 - j) 0 := by
    rw [← Finset.sum_range_reflect (fun j => xs.getD (xs.length - 1 - j) 0) w]
    refine Finset.sum_congr rfl ?_
    intro j hj
    have hjw : j < w := Finset.mem_range.mp hj
    congr 1
    omega
  rw [hsum]

/-- C3. With indicators attached and at least 50 rows, the evaluator (taking
the notification call as succeeding, see C1) fires a BUY signal iff the
five conditions all hold on the latest row (`prev` = second-to-latest):
(1) close above resistance, (2) volume above 1.5× the trailing-20-bar mean
volume, (3) fast EMA above slow EMA, (4) RSI strictly inside (40, 70),
(5) fast EMA at or below slow EMA on the previous row; consequently it
does not fire when any single condition is violated. -/
theorem buy_signal_iff_five_conditions (df : IndicatorFrame)
    (h50 : 50 ≤ df.bars.length) :
    (check_signal df true).isSome = true ↔
      ((∃ r, df.resistance.getD (df.bars.length - 1) none = some r ∧
          r < (df.bars.getD (df.bars.length - 1) default).close) ∧
        ((∑ j ∈ Finset.range 20,
            (df.bars.getD (df.bars.length - 1 - j) default).volume) / 20 * (3 / 2) <
          (df.bars.getD (df.bars.length - 1) default).volume) ∧
        (df.ema_slow.getD (df.bars.length - 1) 0 <
          df.ema_fast.getD (df.bars.length - 1) 0) ∧
        (∃ x, df.rsi.getD (df.bars.length - 1) none = some x ∧ 40 < x ∧ x < 70) ∧
        (df.ema_fast.getD (df.bars.length - 2) 0 ≤
          df.ema_slow.getD (df.bars.length - 2) 0)) := by
  have hcs : (check_signal df true).isSome = buy_conditions df := by
    simp only [check_signal]
    rw [if_neg (by omega)]
    cases hb : buy_conditions df <;> simp [hb]
  have hM : (rollingMean 20 (df.bars.map Bar.volume)).getD (df.bars.length - 1) none
      = some ((∑ j ∈ Finset.range 20,
          (df.bars.getD (df.bars.length - 1 - j) default).volume) / 20) := by
    have h1 := rollingMean_last 20 (df.bars.map Bar.volume) (by omega)
      (by simp only [List.length_map]; omega)
    rw [List.length_map] at h1
    rw [h1]
    congr 2
    refine Finset.sum_congr rfl ?_
    intro j hj
    exact mapBar_getD Bar.volume df.bars (by omega)
  rw [hcs]
  simp only [buy_conditions, hM, Option.map_some]
  simp only [Bool.and_eq_true]
  rw [gtNan_eq_true_iff, gtNan_eq_true_iff, decide_eq_true_iff, decide_eq_true_iff,
    rsiBand_eq_true_iff]
  simp only [Option.map_some', Option.some.injEq, exists_eq_left']
  tauto

/-! ### Claim C8: insufficient history is never an error -/

/-- C8. Insufficient history never raises: the empty series produces the
empty output; a series shorter than the RSI period has an entirely
undefined rsi column, and one shorter than the S/R window entirely
undefined resistance/support columns (never zero-filled); and fewer than
50 rows make `check_signal` return no signal rather than an error. -/
theorem insufficient_history_never_errors :
    (∀ ef es rp sp, calculate_indicators ef es rp sp [] =
      { bars := [], ema_fast := [], ema_slow := [], rsi := [],
        resistance := [], support := [] }) ∧
    (∀ ef es rp sp bars i, bars.length < rp →
      (calculate_indicators ef es rp sp bars).rsi.getD i none = none) ∧
    (∀ ef es rp sp bars i, bars.length < sp →
      (calculate_indicators ef es rp sp bars).resistance.getD i none = none ∧
      (calculate_indicators ef es rp sp bars).support.getD i none = none) ∧
    (∀ df sendOk, df.bars.length < 50 → check_signal df sendOk = none) := by
  refine ⟨fun ef es rp sp => rfl, ?_, ?_, fun df sendOk h => check_signal_short h sendOk⟩
  · intro ef es rp sp bars i hlen
    show (rsiList rp (bars.map Bar.close)).getD i none = none
    set closes := bars.map Bar.close with hcl
    have hclen : closes.length = bars.length := by rw [hcl, List.length_map]
    by_cases hi : i < closes.length
    · rw [rsiList_getD rp closes hi]
      have hg : i < (rollingMean rp (gainsOf closes)).length := by
        rw [length_rollingMean, length_gainsOf]; exact hi
      rw [rollingMean_getD rp _ (by rw [length_gainsOf]; exact hi), if_neg (by omega)]
      rfl
    · rw [List.getD_eq_default _ _ (by rw [length_rsiList]; omega)]
  · intro ef es rp sp bars i hlen
    constructor
    · show (rollingMax sp (bars.map Bar.high)).getD i none = none
      by_cases hi : i < (bars.map Bar.high).length
      · rw [rollingMax_getD sp _ hi, if_neg (by simp only [List.length_map] at hi; omega)]
      · rw [List.getD_eq_default _ _ (by rw [length_rollingMax]; omega)]
    · show (rollingMin sp (bars.map Bar.low)).getD i none = none
      by_cases hi : i < (bars.map Bar.low).length
      · rw [rollingMin_getD sp _ hi, if_neg (by simp only [List.length_map] at hi; omega)]
      · rw [List.getD_eq_default _ _ (by rw [length_rollingMin]; omega)]

/-- Witness for C8: the short-history cases instantiated on a 3-bar
series. -/
theorem insufficient_history_never_errors_witness :
    (shortBars.length < 14 ∧
      (calculate_indicators 9 20 14 20 shortBars).rsi.getD 2 none = none) ∧
    (shortBars.length < 20 ∧
      (calculate_indicators 9 20 14 20 shortBars).resistance.getD 2 none = none ∧
      (calculate_indicators 9 20 14 20 shortBars).support.getD 2 none = none) ∧
    ((calculate_indicators 9 20 14 20 shortBars).bars.length < 50 ∧
      check_signal (calculate_indicators 9 20 14 20 shortBars) true = none) :=
  ⟨⟨by decide, insufficient_history_never_errors.2.1 9 20 14 20 shortBars 2 (by decide)⟩,
    ⟨by decide, insufficient_history_never_errors.2.2.1 9 20 14 20 shortBars 2 (by decide)⟩,
    ⟨by decide, insufficient_history_never_errors.2.2.2
      (calculate_indicators 9 20 14 20 shortBars) true (by decide)⟩⟩

/-! ### Claim C10: the input series is preserved -/

/-- C10. `calculate_indicators` preserves the raw series: the output
frame's bars are exactly the input bars (so the timestamp/open/high/low/
close/volume columns are unchanged), and each derived indicator column has
exactly one entry per input row. -/
theorem indicators_preserve_input (ef es rp sp : ℕ) (bars : List Bar) :
    (calculate_indicators ef es rp sp bars).bars = bars ∧
    (calculate_indicators ef es rp sp bars).ema_fast.length = bars.length ∧
    (calculate_indicators ef es rp sp bars).ema_slow.length = bars.length ∧
    (calculate_indicators ef es rp sp bars).rsi.length = bars.length ∧
    (calculate_indicators ef es rp sp bars).resistance.length = bars.length ∧
    (calculate_indicators ef es rp sp bars).support.length = bars.length := by
  refine ⟨rfl, ?_, ?_, ?_, ?_, ?_⟩
  · show (emaList ef (bars.map Bar.close)).length = bars.length
    rw [length_emaList, List.length_map]
  · show (emaList es (bars.map Bar.close)).length = bars.length
    rw [length_emaList, List.length_map]
  · show (rsiList rp (bars.map Bar.close)).length = bars.length
    rw [length_rsiList, List.length_map]
  · show (rollingMax sp (bars.map Bar.high)).length = bars.length
    rw [length_rollingMax, List.length_map]
  · show (rollingMin sp (bars.map Bar.low)).length = bars.length
    rw [length_rollingMin, List.length_map]

/-! ### Claims C1 and C9: signal production and payload -/

theorem sigFrameWith_buy (s : ℚ) : buy_conditions (sigFrameWith s) = true := by
  have hM : (rollingMean 20 (List.map Bar.volume
      (List.replicate 49 (sigBar 100 10) ++ [sigBar 103 100]))).getD 49 none
      = some (29 / 2) := by
    rw [show List.map Bar.volume (List.replicate 49 (sigBar 100 10) ++ [sigBar 103 100])
      = List.replicate 49 (10 : ℚ) ++ [100] from by decide]
    rw [rollingMean_getD 20 _
      (show (49 : ℕ) < (List.replicate 49 (10 : ℚ) ++ [100]).length by decide),
      if_pos (by omega)]
    have hwin : ((List.replicate 49 (10 : ℚ) ++ [100]).drop (49 + 1 - 20)).take 20
        = List.replicate 19 (10 : ℚ) ++ [100] := by decide
    rw [hwin, List.sum_append, List.sum_replicate]
    norm_num
  show gtNan 103 (some 100) &&
    gtNan 100 (((rollingMean 20 (List.map Bar.volume
        (List.replicate 49 (sigBar 100 10) ++ [sigBar 103 100]))).getD 49 none).map
      (fun m => m * (3 / 2))) &&
    decide ((100 : ℚ) < 101) &&
    (decide ((40 : ℚ) < 50) && decide ((50 : ℚ) < 70)) &&
    decide ((90 : ℚ) ≤ 95) = true
  rw [hM]
  show (decide ((100 : ℚ) < 103) && decide ((29 : ℚ) / 2 * (3 / 2) < 100) &&
    decide ((100 : ℚ) < 101) && (decide ((40 : ℚ) < 50) && decide ((50 : ℚ) < 70)) &&
    decide ((90 : ℚ) ≤ 95)) = true
  simp only [Bool.and_eq_true, decide_eq_true_iff]
  norm_num

theorem sigFrame80_signal : check_signal (sigFrameWith 80) true = some sigRecord80 := by
  rw [check_signal_fires (by decide) (sigFrameWith_buy 80)]
  have hlen : (sigFrameWith (80 : ℚ)).bars.length = 50 := by decide
  rw [hlen]
  have hcl : ((sigFrameWith (80 : ℚ)).bars.getD (50 - 1) default).close = 103 := by decide
  have hsup : (sigFrameWith (80 : ℚ)).support.getD (50 - 1) none = some 80 := by decide
  have hrsi : (sigFrameWith (80 : ℚ)).rsi.getD (50 - 1) none = some 50 := by decide
  rw [hcl, hsup, hrsi, sigRecord80]
  simp only [Option.map_some', Option.some.injEq, Signal.mk.injEq]
  norm_num

/-- C1 (code bug). Signal detection is coupled to notification delivery:
`check_signal` only returns the signal record when `send_telegram_alert`
returns True.  On a 50-row frame whose latest rows satisfy all five buy
conditions, a succeeding send yields the BUY record, but a failing send
makes `check_signal` return None — indeed a failing send yields None on
every frame — so a notification failure does suppress the detected
signal, contradicting the spec's decoupling. -/
theorem notification_failure_suppresses_signal :
    buy_conditions (sigFrameWith 80) = true ∧
    50 ≤ (sigFrameWith 80).bars.length ∧
    check_signal (sigFrameWith 80) true = some sigRecord80 ∧
    check_signal (sigFrameWith 80) false = none ∧
    (∀ df : IndicatorFrame, check_signal df false = none) :=
  ⟨sigFrameWith_buy 80, by decide, sigFrame80_signal,
    check_signal_send_false _, check_signal_send_false⟩

/-- C9. Whenever `check_signal` produces a signal, its payload is exactly:
entry price = latest close, stop loss = latest support, take-profits =
close + risk and close + 1.5·risk with risk = close − support, and
rsi_at_signal = latest rsi; and a non-positive risk (support at 200 above
the close 103) is not rejected — the signal is surfaced as-is. -/
theorem signal_payload_exact :
    (∀ (df : IndicatorFrame) (sendOk : Bool) (sig : Signal),
      check_signal df sendOk = some sig →
      sig.type = "BUY" ∧
      sig.price = (df.bars.getD (df.bars.length - 1) default).close ∧
      sig.sl = df.support.getD (df.bars.length - 1) none ∧
      sig.tp1 = (df.support.getD (df.bars.length - 1) none).map
        (fun s => sig.price + (sig.price - s)) ∧
      sig.tp2 = (df.support.getD (df.bars.length - 1) none).map
        (fun s => sig.price + (sig.price - s) * (3 / 2)) ∧
      sig.rsi = df.rsi.getD (df.bars.length - 1) none) ∧
    (∃ sig : Signal, check_signal (sigFrameWith 200) true = some sig ∧
      sig.sl = some 200 ∧ sig.price = 103 ∧ sig.price - 200 < 0) := by
  constructor
  · intro df sendOk sig h
    by_cases h50 : df.bars.length < 50
    · rw [check_signal_short h50] at h
      cases h
    · cases hbuy : buy_conditions df with
      | false =>
        rw [check_signal_no_buy hbuy] at h
        cases h
      | true =>
        cases sendOk with
        | false =>
          rw [check_signal_send_false] at h
          cases h
        | true =>
          rw [check_signal_fires (by omega) hbuy] at h
          have hrec := (Option.some.injEq _ _).mp h
          subst hrec
          refine ⟨rfl, rfl, rfl, ?_, ?_, rfl⟩
          · simp only [Option.map_map]
          · simp only [Option.map_map]

  · refine ⟨_, check_signal_fires (by decide) (sigFrameWith_buy 200), ?_, ?_, ?_⟩
    · show (sigFrameWith (200 : ℚ)).support.getD ((sigFrameWith (200 : ℚ)).bars.length - 1)
        none = some 200
      decide
    · show ((sigFrameWith (200 : ℚ)).bars.getD ((sigFrameWith (200 : ℚ)).bars.length - 1)
        default).close = 103
      decide
    · show ((sigFrameWith (200 : ℚ)).bars.getD ((sigFrameWith (200 : ℚ)).bars.length - 1)
        default).close - 200 < 0
      rw [show ((sigFrameWith (200 : ℚ)).bars.getD ((sigFrameWith (200 : ℚ)).bars.length
        - 1) default).close = 103 from by decide]
      norm_num

/-- Witness for C9: the payload equations instantiated on the fixture
frame and its produced record. -/
theorem signal_payload_exact_witness :
    check_signal (sigFrameWith 80) true = some sigRecord80 ∧
    (sigRecord80.type = "BUY" ∧
      sigRecord80.price =
        ((sigFrameWith 80).bars.getD ((sigFrameWith 80).bars.length - 1) default).close ∧
      sigRecord80.sl = (sigFrameWith 80).support.getD ((sigFrameWith 80).bars.length - 1) none ∧
      sigRecord80.tp1 = ((sigFrameWith 80).support.getD ((sigFrameWith 80).bars.length - 1)
        none).map (fun s => sigRecord80.price + (sigRecord80.price - s)) ∧
      sigRecord80.tp2 = ((sigFrameWith 80).support.getD ((sigFrameWith 80).bars.length - 1)
        none).map (fun s => sigRecord80.price + (sigRecord80.price - s) * (3 / 2)) ∧
      sigRecord80.rsi = (sigFrameWith 80).rsi.getD ((sigFrameWith 80).bars.length - 1) none) :=
  ⟨sigFrame80_signal,
    signal_payload_exact.1 (sigFrameWith 80) true sigRecord80 sigFrame80_signal⟩

/-- Witness for C3: the firing equivalence instantiated on the fixture
frame, whose five conditions hold. -/
theorem buy_signal_iff_five_conditions_witness :
    50 ≤ (sigFrameWith 80).bars.length ∧
    ((check_signal (sigFrameWith 80) true).isSome = true ↔
      ((∃ r, (sigFrameWith 80).resistance.getD ((sigFrameWith 80).bars.length - 1) none
          = some r ∧
          r < ((sigFrameWith 80).bars.getD ((sigFrameWith 80).bars.length - 1) default).close) ∧
        ((∑ j ∈ Finset.range 20,
            ((sigFrameWith 80).bars.getD ((sigFrameWith 80).bars.length - 1 - j)
              default).volume) / 20 * (3 / 2) <
          ((sigFrameWith 80).bars.getD ((sigFrameWith 80).bars.length - 1) default).volume) ∧
        ((sigFrameWith 80).ema_slow.getD ((sigFrameWith 80).bars.length - 1) 0 <
          (sigFrameWith 80).ema_fast.getD ((sigFrameWith 80).bars.length - 1) 0) ∧
        (∃ x, (sigFrameWith 80).rsi.getD ((sigFrameWith 80).bars.length - 1) none = some x ∧
          40 < x ∧ x < 70) ∧
        ((sigFrameWith 80).ema_fast.getD ((sigFrameWith 80).bars.length - 2) 0 ≤
          (sigFrameWith 80).ema_slow.getD ((sigFrameWith 80).bars.length - 2) 0))) :=
  ⟨by decide, buy_signal_iff_five_conditions (sigFrameWith 80) (by decide)⟩

end Cripto
